import Mathlib

/-!
Erhu fingering chart: the transposition engine of `erhu.cpp`

A shallow embedding of the pure core of `src/erhu.cpp`:

* `chromatic_scale`, `get_note_index`            (the 12 note names and the name lookup)
* `get_simplified_notation_scale`                (the major scale table of a root)
* `process_key_signature`                        (flat spellings to canonical roots)
* `get_simplified_note`                          (degree symbol of a chromatic index)
* `print_erhu_fingering_chart_vertical`          (the position x finger x string cells)

Conventions of the embedding.

* A C++ `std::string` is a Lean `String`, read as its sequence of characters
  (`String.data`); a Lean `Char` stands for a C++ `char`.
* A C++ `int` is a Lean `Int`.  All values that occur are far from the machine
  bounds (indices below 12, sums below 50), and `%` is the truncating `Int.tmod`.
* A `std::map<int, string>` is a list of pairs kept in strictly increasing key
  order, the order in which `std::map` stores and iterates its entries.
* An out-of-range `chromatic_scale[i]` has no defined result in C++; the embedded
  functions return `none` there.
* Console output is not modelled: the chart function returns the values it would
  print (the two open-string displays and the cells of the table).
-/

namespace Erhu

/-! ## Data -/

/-- The twelve note names, `chromatic_scale` of the source. -/
def chromatic_scale : List String :=
  "C" :: "C#" :: "D" :: "D#" :: "E" :: "F" :: "F#" :: "G" :: "G#" :: "A" :: "A#" :: "B" :: []

/-- Inner open string. -/
def inner_string_note : String := "D"

/-- Outer open string. -/
def outer_string_note : String := "A"

/-- A `std::map<int, string>`: entries in increasing key order. -/
abbrev ScaleMap := List (Int × String)

/-- The lookup `scale.find(k)`, with `none` for `scale.end()`. -/
def map_find (k : Int) : ScaleMap → Option String
  | [] => none
  | (k', v) :: rest => if k' = k then some v else map_find k rest

/-- The assignment `scale[k] = v`: overwrite the entry of `k` or add one in key order. -/
def map_assign (k : Int) (v : String) : ScaleMap → ScaleMap
  | [] => [(k, v)]
  | (k', v') :: rest =>
    if k < k' then (k, v) :: (k', v') :: rest
    else if k = k' then (k, v) :: rest
    else (k', v') :: map_assign k v rest

/-- The test `scale.empty()`. -/
def map_empty (m : ScaleMap) : Bool := m.isEmpty

/-- The keys of a map, in order. -/
def map_keys (m : ScaleMap) : List Int := m.map Prod.fst

/-- The values of a map, in key order. -/
def map_values (m : ScaleMap) : List String := m.map Prod.snd

/-! ## `get_note_index` -/

/-- The loop of `get_note_index`: scan the remaining names from position `i`. -/
def get_note_index_loop (note : String) : List String → Int → Int
  | [], _ => -1
  | n :: rest, i => if n = note then i else get_note_index_loop note rest (i + 1)

/-- Index of a note name in `chromatic_scale`, or `-1`. -/
def get_note_index (note : String) : Int :=
  get_note_index_loop note chromatic_scale 0

/-! ## `get_simplified_notation_scale` -/

/-- The major scale offsets, `intervals` of the source. -/
def intervals : List Int := [0, 2, 4, 5, 7, 9, 11]

/-- The if-chain choosing the symbol of loop step `i`; the string starts empty. -/
def note_symbol (i : Nat) : String :=
  if i = 0 then "1"
  else if i = 1 then "2"
  else if i = 2 then "3"
  else if i = 3 then "4"
  else if i = 4 then "5"
  else if i = 5 then "6"
  else if i = 6 then "7"
  else ""

/-- One pass of the loop body of `get_simplified_notation_scale`. -/
def scale_step (root_index : Int) (scale : ScaleMap) (i : Nat) : ScaleMap :=
  let note_index := Int.tmod (root_index + intervals.getD i 0) 12
  map_assign note_index (note_symbol i) scale

/-- The scale table of a root: empty when the root is not a note name. -/
def get_simplified_notation_scale (root : String) : ScaleMap :=
  let root_index := get_note_index root
  if root_index = -1 then []
  else (List.range 7).foldl (scale_step root_index) []

/-! ## `process_key_signature` -/

/-- Flat spellings are replaced through the fixed table, anything else is returned as is. -/
def process_key_signature (key : String) : String :=
  match key.data with
  | base_note :: c1 :: _ =>
    if c1 = 'b' then
      if base_note = 'B' then "A#"
      else if base_note = 'E' then "D#"
      else if base_note = 'A' then "G#"
      else if base_note = 'D' then "C#"
      else if base_note = 'G' then "F#"
      else if base_note = 'C' then "B"
      else if base_note = 'F' then "E"
      else key
    else key
  | _ => key

/-! ## `get_simplified_note` -/

/-- The call `s.substr(0, s.find(c))` for a character `c` that occurs in `s`. -/
def substr_before (c : Char) (s : String) : String :=
  String.mk (s.data.takeWhile (fun x => x != c))

/-- The name stored at an index of `chromatic_scale`; `none` outside the table. -/
def chromatic_at (note_index : Int) : Option String :=
  if 0 ≤ note_index then chromatic_scale.get? note_index.toNat else none

/-- The degree symbol of a chromatic index against a scale table. -/
def get_simplified_note (note_index : Int) (scale : ScaleMap) : Option String :=
  match map_find note_index scale with
  | some v => some v
  | none =>
    match chromatic_at note_index with
    | none => none
    | some note_name =>
      if '#' ∈ note_name.data then
        let base_note := substr_before '#' note_name
        let base_index := get_note_index base_note
        match map_find base_index scale with
        | some v => some (v ++ "#")
        | none => some "?"
      else if 'b' ∈ note_name.data then
        let base_note := substr_before 'b' note_name
        let base_index := get_note_index base_note
        match map_find base_index scale with
        | some v => some (v ++ "b")
        | none => some "?"
      else some "?"

/-! ## `print_erhu_fingering_chart_vertical` -/

/-- The position labels of the chart. -/
def positions : List String := ["第一把位", "第二把位", "第三把位", "第四把位"]

/-- The finger labels of the chart: open string, then fingers one to four. -/
def fingers : List String := ["空弦", "一指", "二指", "三指", "四指"]

/-- The semitones a finger slot adds, `finger_interval` of the source. -/
def finger_interval : List Int := [0, 2, 4, 5, 7]

/-- The index computed for the inner string at a position and finger slot. -/
def inner_note_index (inner_index : Int) (pos finger : Nat) : Int :=
  if finger = 0 then Int.tmod (inner_index + (pos : Int) * 7) 12
  else Int.tmod (inner_index + (pos : Int) * 7 + finger_interval.getD finger 0) 12

/-- The index computed for the outer string at a position and finger slot. -/
def outer_note_index (outer_index : Int) (pos finger : Nat) : Int :=
  if finger = 0 then Int.tmod (outer_index + (pos : Int) * 7) 12
  else Int.tmod (outer_index + (pos : Int) * 7 + finger_interval.getD finger 0) 12

/-- What the chart shows for a key: both open-string displays and, for each position and
finger slot, the inner and the outer symbol. -/
structure Chart where
  inner_string_display : String
  outer_string_display : String
  cells : List (List (String × String))
  deriving DecidableEq

/-- The two ways the chart function ends: the invalid-key message, or a chart. -/
inductive Outcome where
  | invalid_key
  | chart (c : Chart)
  deriving DecidableEq

/-- One line of the table: the inner and outer symbol of a position and finger slot. -/
def chart_line (inner_index outer_index : Int) (scale : ScaleMap) (pos finger : Nat) :
    Option (String × String) := do
  let inner_note ← get_simplified_note (inner_note_index inner_index pos finger) scale
  let outer_note ← get_simplified_note (outer_note_index outer_index pos finger) scale
  pure (inner_note, outer_note)

/-- The chart of a key signature; `none` only if a table access is out of range. -/
def print_erhu_fingering_chart_vertical (key_signature : String) : Option Outcome :=
  let processed_key := process_key_signature key_signature
  let scale := get_simplified_notation_scale processed_key
  if map_empty scale then some Outcome.invalid_key
  else do
    let inner_index := get_note_index inner_string_note
    let outer_index := get_note_index outer_string_note
    let inner_string_display ← get_simplified_note inner_index scale
    let outer_string_display ← get_simplified_note outer_index scale
    let cells ← (List.range positions.length).mapM fun pos =>
      (List.range fingers.length).mapM fun finger =>
        chart_line inner_index outer_index scale pos finger
    pure (Outcome.chart ⟨inner_string_display, outer_string_display, cells⟩)

/-- The symbols of a chart, string by string: all inner cells, then all outer cells. -/
def chart_symbols (c : Chart) : List String :=
  c.cells.flatten.map Prod.fst ++ c.cells.flatten.map Prod.snd

/-- The two open-string displays of an outcome (inner, outer); none without a chart. -/
def open_string_displays (o : Outcome) : Option (String × String) :=
  match o with
  | Outcome.chart c => some (c.inner_string_display, c.outer_string_display)
  | Outcome.invalid_key => none

/-! ## The check of `main` before the chart is printed -/

/-- The keys the help text of `main` lists as supported. -/
def supported_keys : List String :=
  ["C", "D", "E", "F", "G", "A", "B", "C#", "D#", "F#", "G#", "A#",
   "Bb", "Eb", "Ab", "Db", "Gb"]

/-- The loop of `main` that sets `is_valid_note`. -/
def is_valid_note (processed_input : String) : Bool :=
  chromatic_scale.any fun note => note = process_key_signature processed_input

/-- The degree strings: a digit `1`..`7`, alone or followed by `#` or `b`. -/
def is_degree_string (s : String) : Bool :=
  match s.data with
  | [d] => ['1', '2', '3', '4', '5', '6', '7'].contains d
  | [d, a] => ['1', '2', '3', '4', '5', '6', '7'].contains d && (a == '#' || a == 'b')
  | _ => false

/-! ## The hints printed under the chart -/

/-- The open-string degrees (inner, outer) that the hint of a key announces, printed as
`inner-outer`; `none` for the keys that get the general hint. -/
def open_string_hint (key_signature : String) : Option (String × String) :=
  if key_signature = "D" then some ("1", "5")
  else if key_signature = "G" then some ("5", "2")
  else if key_signature = "F" then some ("6", "3")
  else if key_signature = "C" then some ("2", "6")
  else if key_signature = "A" then some ("4", "1")
  else if key_signature = "Bb" then some ("3", "7")
  else if key_signature = "Eb" then some ("b7", "4")
  else none

/-! ## Lemmas on the name lookup and the normalizer -/

theorem mem_chromatic_scale_iff (n : String) :
    n ∈ chromatic_scale ↔
      n = "C" ∨ n = "C#" ∨ n = "D" ∨ n = "D#" ∨ n = "E" ∨ n = "F" ∨ n = "F#" ∨
      n = "G" ∨ n = "G#" ∨ n = "A" ∨ n = "A#" ∨ n = "B" := by
  simp [chromatic_scale]

theorem get_note_index_loop_ge (note : String) (l : List String) (i : Int) :
    get_note_index_loop note l i = -1 ∨ i ≤ get_note_index_loop note l i := by
  induction l generalizing i with
  | nil => left; rfl
  | cons n rest ih =>
    unfold get_note_index_loop
    split_ifs with hn
    · right; exact le_refl i
    · rcases ih (i + 1) with h | h
      · left; exact h
      · right; omega

theorem get_note_index_loop_eq_neg_one_iff (note : String) (l : List String) (i : Int)
    (hi : 0 ≤ i) : get_note_index_loop note l i = -1 ↔ note ∉ l := by
  induction l generalizing i with
  | nil => simp [get_note_index_loop]
  | cons n rest ih =>
    unfold get_note_index_loop
    split_ifs with hn
    · subst hn
      constructor
      · intro h; omega
      · intro h; exact absurd (List.mem_cons_self _ _) h
    · rw [ih (i + 1) (by omega), List.mem_cons, not_or]
      constructor
      · intro h; exact ⟨fun e => hn e.symm, h⟩
      · intro h; exact h.2

theorem get_note_index_eq_neg_one_iff (n : String) :
    get_note_index n = -1 ↔ n ∉ chromatic_scale :=
  get_note_index_loop_eq_neg_one_iff n chromatic_scale 0 (le_refl 0)

theorem scale_of_unknown_root (root : String) (h : get_note_index root = -1) :
    get_simplified_notation_scale root = [] := by
  simp [get_simplified_notation_scale, h]

theorem scale_of_canonical_root :
    ∀ R ∈ chromatic_scale, get_simplified_notation_scale R ≠ [] := by
  decide

theorem scale_eq_nil_iff (root : String) :
    get_simplified_notation_scale root = [] ↔ get_note_index root = -1 := by
  constructor
  · intro h
    by_contra hne
    have hmem : root ∈ chromatic_scale := by
      by_contra hn
      exact hne ((get_note_index_eq_neg_one_iff root).2 hn)
    exact scale_of_canonical_root root hmem h
  · exact scale_of_unknown_root root

theorem process_canonical : ∀ R ∈ chromatic_scale, process_key_signature R = R := by
  decide

theorem print_eq_of_process_eq (k1 k2 : String)
    (h : process_key_signature k1 = process_key_signature k2) :
    print_erhu_fingering_chart_vertical k1 = print_erhu_fingering_chart_vertical k2 := by
  simp only [print_erhu_fingering_chart_vertical, h]

theorem print_eq_print_root (key : String) :
    print_erhu_fingering_chart_vertical key =
      print_erhu_fingering_chart_vertical (process_key_signature key) ∨
    process_key_signature key ∉ chromatic_scale := by
  by_cases h : process_key_signature key ∈ chromatic_scale
  · left
    exact print_eq_of_process_eq _ _ (process_canonical _ h).symm
  · right; exact h

theorem print_invalid_of_unknown (key : String)
    (h : process_key_signature key ∉ chromatic_scale) :
    print_erhu_fingering_chart_vertical key = some Outcome.invalid_key := by
  have h1 := scale_of_unknown_root _ ((get_note_index_eq_neg_one_iff _).2 h)
  simp [print_erhu_fingering_chart_vertical, h1, map_empty]

theorem print_root_not_invalid :
    ∀ R ∈ chromatic_scale,
      print_erhu_fingering_chart_vertical R ≠ some Outcome.invalid_key := by
  decide

theorem process_canonical_or_same (x : String) :
    process_key_signature x ∈ chromatic_scale ∨ process_key_signature x = x := by
  unfold process_key_signature
  split
  · split_ifs <;> first | (right; rfl) | (left; decide)
  · right; rfl

theorem chart_of_canonical_root :
    ∀ R ∈ chromatic_scale,
      ∃ c, print_erhu_fingering_chart_vertical R = some (Outcome.chart c) ∧
        c.cells.length = 4 ∧ (∀ row ∈ c.cells, row.length = 5) ∧
        (chart_symbols c).length = 40 ∧
        ∀ s ∈ chart_symbols c, s = "?" ∨ is_degree_string s = true := by
  intro R hR
  rw [mem_chromatic_scale_iff] at hR
  rcases hR with h | h | h | h | h | h | h | h | h | h | h | h <;> subst h <;>
    exact ⟨_, rfl, by decide, by decide, by decide, by decide⟩

theorem chart_of_valid_key (key : String)
    (h : process_key_signature key ∈ chromatic_scale) :
    ∃ c, print_erhu_fingering_chart_vertical key = some (Outcome.chart c) ∧
      c.cells.length = 4 ∧ (∀ row ∈ c.cells, row.length = 5) ∧
      (chart_symbols c).length = 40 ∧
      ∀ s ∈ chart_symbols c, s = "?" ∨ is_degree_string s = true := by
  rw [print_eq_of_process_eq key (process_key_signature key) (process_canonical _ h).symm]
  exact chart_of_canonical_root _ h

theorem get_note_index_loop_spec (note : String) (l : List String) (i : Int) :
    get_note_index_loop note l i = -1 ∨
      (i ≤ get_note_index_loop note l i ∧
        get_note_index_loop note l i < i + l.length ∧
        l.get? (get_note_index_loop note l i - i).toNat = some note) := by
  induction l generalizing i with
  | nil => left; rfl
  | cons n rest ih =>
    unfold get_note_index_loop
    split_ifs with hn
    · right
      refine ⟨le_refl i, ?_, ?_⟩
      · simp only [List.length_cons, Nat.cast_add, Nat.cast_one]; omega
      · simp [hn]
    · rcases ih (i + 1) with h | ⟨h1, h2, h3⟩
      · left; exact h
      · right
        refine ⟨by omega, ?_, ?_⟩
        · simp only [List.length_cons, Nat.cast_add, Nat.cast_one]; omega
        · have e : (get_note_index_loop note rest (i + 1) - i).toNat =
              (get_note_index_loop note rest (i + 1) - (i + 1)).toNat + 1 := by omega
          rw [e, List.get?_cons_succ]
          exact h3

theorem get_note_index_spec (n : String) :
    get_note_index n = -1 ∨
      (0 ≤ get_note_index n ∧ get_note_index n ≤ 11 ∧
        chromatic_at (get_note_index n) = some n) := by
  rcases get_note_index_loop_spec n chromatic_scale 0 with h | ⟨h1, h2, h3⟩
  · left; exact h
  · right
    have hlen : ((chromatic_scale.length : Nat) : Int) = 12 := by decide
    have h1' : 0 ≤ get_note_index n := h1
    have h2' : get_note_index n < 0 + 12 := hlen ▸ h2
    refine ⟨h1', by omega, ?_⟩
    unfold chromatic_at
    rw [if_pos h1']
    simpa using h3

theorem chromatic_at_in_range (i : Int) (h0 : 0 ≤ i) (h1 : i ≤ 11) :
    ∃ name, chromatic_at i = some name := by
  interval_cases i <;> exact ⟨_, rfl⟩

theorem get_simplified_note_defined (i : Int) (scale : ScaleMap) (h0 : 0 ≤ i)
    (h1 : i ≤ 11) : (get_simplified_note i scale).isSome = true := by
  obtain ⟨name, hn⟩ := chromatic_at_in_range i h0 h1
  unfold get_simplified_note
  rw [hn]
  split
  · rfl
  · dsimp only
    split_ifs <;> first | rfl | (split <;> rfl)

theorem sharp_symbol_table :
    ∀ R ∈ chromatic_scale, ∀ i : Nat, i < 12 →
      ((get_simplified_note (i : Int) (get_simplified_notation_scale R)).getD "").data.getLast?
        = some '#' →
      (i : Int) ∉ map_keys (get_simplified_notation_scale R) ∧
      map_find (i : Int) (get_simplified_notation_scale R) = none ∧
      map_find (((i : Int) + 11) % 12) (get_simplified_notation_scale R) =
        some (String.mk
          ((get_simplified_note (i : Int) (get_simplified_notation_scale R)).getD
            "").data.dropLast) := by
  decide

/-! ## Claims -/

/-- C1: for each of the 12 canonical roots the scale table has exactly 7 entries, its keys
are pairwise distinct and lie in 0..11, and its values are the seven symbols "1".."7",
each once. -/
theorem scale_table_seven_entries :
    ∀ R ∈ chromatic_scale,
      (get_simplified_notation_scale R).length = 7 ∧
      (map_keys (get_simplified_notation_scale R)).Nodup ∧
      (∀ k ∈ map_keys (get_simplified_notation_scale R), 0 ≤ k ∧ k ≤ 11) ∧
      (map_values (get_simplified_notation_scale R)).Nodup ∧
      (map_values (get_simplified_notation_scale R)).Perm
        ["1", "2", "3", "4", "5", "6", "7"] := by
  decide

theorem scale_table_seven_entries_witness :
    "F#" ∈ chromatic_scale ∧
      (get_simplified_notation_scale "F#").length = 7 ∧
      (map_keys (get_simplified_notation_scale "F#")).Nodup ∧
      (∀ k ∈ map_keys (get_simplified_notation_scale "F#"), 0 ≤ k ∧ k ≤ 11) ∧
      (map_values (get_simplified_notation_scale "F#")).Nodup ∧
      (map_values (get_simplified_notation_scale "F#")).Perm
        ["1", "2", "3", "4", "5", "6", "7"] :=
  ⟨by decide, scale_table_seven_entries "F#" (by decide)⟩

/-- C2: for each canonical root R with index r and each k in 0..6, the index
(r + offsets[k]) mod 12 resolves against the scale of R to the decimal symbol of k+1;
in particular the index of the root resolves to "1". -/
theorem scale_degree_of_offset :
    ∀ R ∈ chromatic_scale, ∀ k < 7,
      get_simplified_note ((get_note_index R + intervals.getD k 0) % 12)
          (get_simplified_notation_scale R) = some (toString (k + 1)) ∧
      get_simplified_note (get_note_index R) (get_simplified_notation_scale R)
        = some "1" := by
  decide

theorem scale_degree_of_offset_witness :
    "A#" ∈ chromatic_scale ∧ 6 < 7 ∧
      get_simplified_note ((get_note_index "A#" + intervals.getD 6 0) % 12)
          (get_simplified_notation_scale "A#") = some (toString (6 + 1)) ∧
      get_simplified_note (get_note_index "A#") (get_simplified_notation_scale "A#")
        = some "1" :=
  ⟨by decide, by decide, scale_degree_of_offset "A#" (by decide) 6 (by decide)⟩

/-- C3: the chart of a key ends with the invalid-key outcome exactly when the normalized
key is not one of the 12 canonical names; the scale table of a root is empty exactly when
`get_note_index` of the root is -1; and the key "H" ends with the invalid-key outcome,
which carries no cell. -/
theorem invalid_key_iff_not_canonical :
    (∀ key : String,
      print_erhu_fingering_chart_vertical key = some Outcome.invalid_key ↔
        process_key_signature key ∉ chromatic_scale) ∧
    (∀ root : String,
      get_simplified_notation_scale root = [] ↔ get_note_index root = -1) ∧
    (∀ key : String,
      map_empty (get_simplified_notation_scale (process_key_signature key)) = true ↔
        get_note_index (process_key_signature key) = -1) ∧
    process_key_signature "H" = "H" ∧
    get_note_index "H" = -1 ∧
    print_erhu_fingering_chart_vertical "H" = some Outcome.invalid_key := by
  refine ⟨?_, scale_eq_nil_iff, ?_, by decide, by decide, by decide⟩
  · intro key
    constructor
    · intro h hmem
      rcases print_eq_print_root key with he | hn
      · exact print_root_not_invalid _ hmem (he ▸ h)
      · exact hn hmem
    · exact print_invalid_of_unknown key
  · intro key
    rw [← scale_eq_nil_iff]
    simp [map_empty]

/-- C4, as stated, fails: in the scale of root D the index 0 (the name C, no sharp, not a
key of the table) resolves to the sentinel "?". -/
theorem sentinel_reached_in_scale_of_D :
    "D" ∈ chromatic_scale ∧ (0 : Int) ≤ 0 ∧ (0 : Int) ≤ 11 ∧
      map_find 0 (get_simplified_notation_scale "D") = none ∧
      chromatic_at 0 = some "C" ∧
      get_simplified_note 0 (get_simplified_notation_scale "D") = some "?" := by
  decide

/-- C4, amended: for each canonical root R and each index i in 0..11 that is a key of the
scale of R or whose name in `chromatic_scale` contains a sharp, `get_simplified_note`
returns a symbol and that symbol is not "?". -/
theorem sentinel_not_reached_on_scale_or_sharp :
    ∀ R ∈ chromatic_scale, ∀ i : Nat, i < 12 →
      ((i : Int) ∈ map_keys (get_simplified_notation_scale R) ∨
        '#' ∈ (chromatic_scale.getD i "").data) →
      (get_simplified_note (i : Int) (get_simplified_notation_scale R)).isSome = true ∧
      get_simplified_note (i : Int) (get_simplified_notation_scale R) ≠ some "?" := by
  decide

theorem sentinel_not_reached_on_scale_or_sharp_witness :
    "D" ∈ chromatic_scale ∧ 3 < 12 ∧
      (((3 : Nat) : Int) ∈ map_keys (get_simplified_notation_scale "D") ∨
        '#' ∈ (chromatic_scale.getD 3 "").data) ∧
      (get_simplified_note ((3 : Nat) : Int) (get_simplified_notation_scale "D")).isSome
        = true ∧
      get_simplified_note ((3 : Nat) : Int) (get_simplified_notation_scale "D")
        ≠ some "?" :=
  ⟨by decide, by decide, by decide,
    sentinel_not_reached_on_scale_or_sharp "D" (by decide) 3 (by decide) (by decide)⟩

/-- C5: for every key whose normalized root is a canonical name the chart is produced and
has 4 positions of 5 finger slots for each of the 2 strings, 40 symbols in all, and every
symbol is "?" or a degree string: a digit 1..7, alone or followed by '#' or 'b'. -/
theorem chart_shape_of_valid_key (key : String)
    (h : process_key_signature key ∈ chromatic_scale) :
    ∃ c, print_erhu_fingering_chart_vertical key = some (Outcome.chart c) ∧
      c.cells.length = 4 ∧ (∀ row ∈ c.cells, row.length = 5) ∧
      (chart_symbols c).length = 40 ∧
      ∀ s ∈ chart_symbols c, s = "?" ∨ is_degree_string s = true :=
  chart_of_valid_key key h

theorem chart_shape_of_valid_key_witness :
    process_key_signature "Eb" ∈ chromatic_scale ∧
    ∃ c, print_erhu_fingering_chart_vertical "Eb" = some (Outcome.chart c) ∧
      c.cells.length = 4 ∧ (∀ row ∈ c.cells, row.length = 5) ∧
      (chart_symbols c).length = 40 ∧
      ∀ s ∈ chart_symbols c, s = "?" ∨ is_degree_string s = true :=
  ⟨by decide, chart_shape_of_valid_key "Eb" (by decide)⟩

/-- C6: the normalizer maps the flat spellings by the fixed table (Bb to A#, Eb to D#,
Ab to G#, Db to C#, Gb to F#, Cb to B, Fb to E), so for every base letter A..G followed
by 'b' the result is a canonical name and differs from the input. -/
theorem flat_spellings_normalized :
    process_key_signature "Bb" = "A#" ∧ process_key_signature "Eb" = "D#" ∧
    process_key_signature "Ab" = "G#" ∧ process_key_signature "Db" = "C#" ∧
    process_key_signature "Gb" = "F#" ∧ process_key_signature "Cb" = "B" ∧
    process_key_signature "Fb" = "E" ∧
    (∀ X ∈ ['A', 'B', 'C', 'D', 'E', 'F', 'G'],
      process_key_signature (String.mk [X, 'b']) ∈ chromatic_scale ∧
      process_key_signature (String.mk [X, 'b']) ≠ String.mk [X, 'b']) := by
  decide

/-- C7: normalization is idempotent, on every input string and so on every valid input
(a base letter A..G, alone or followed by '#' or 'b'). -/
theorem process_key_signature_idempotent (x : String) :
    process_key_signature (process_key_signature x) = process_key_signature x := by
  rcases process_canonical_or_same x with h | h
  · exact process_canonical _ h
  · rw [h, h]

/-- C8: the scale table of root D (index 2) is {2:"1", 4:"2", 6:"3", 7:"4", 9:"5",
11:"6", 1:"7"}; against it the outer open string A (index 9) resolves to "5" and the
inner open string D (index 2) to "1". -/
theorem scale_of_D :
    get_note_index "D" = 2 ∧
    get_simplified_notation_scale "D" =
      [(1, "7"), (2, "1"), (4, "2"), (6, "3"), (7, "4"), (9, "5"), (11, "6")] ∧
    (get_simplified_notation_scale "D").Perm
      [(2, "1"), (4, "2"), (6, "3"), (7, "4"), (9, "5"), (11, "6"), (1, "7")] ∧
    get_note_index outer_string_note = 9 ∧
    get_simplified_note (get_note_index outer_string_note)
      (get_simplified_notation_scale "D") = some "5" ∧
    get_note_index inner_string_note = 2 ∧
    get_simplified_note (get_note_index inner_string_note)
      (get_simplified_notation_scale "D") = some "1" := by
  decide

/-- C9: the scale table of root C (index 0) is {0:"1", 2:"2", 4:"3", 5:"4", 7:"5",
9:"6", 11:"7"}; index 1 (the name C#) is not a key of it, and it resolves to "1#" through
the name C# stripped to C, whose index 0 carries "1". -/
theorem scale_of_C_and_sharp_fallback :
    get_note_index "C" = 0 ∧
    get_simplified_notation_scale "C" =
      [(0, "1"), (2, "2"), (4, "3"), (5, "4"), (7, "5"), (9, "6"), (11, "7")] ∧
    map_find 1 (get_simplified_notation_scale "C") = none ∧
    chromatic_at 1 = some "C#" ∧
    substr_before '#' "C#" = "C" ∧
    map_find (get_note_index "C") (get_simplified_notation_scale "C") = some "1" ∧
    get_simplified_note 1 (get_simplified_notation_scale "C") = some "1#" := by
  decide

/-- C10: every key the help text lists as supported is accepted: its normalized root is a
canonical name, the check of `main` passes, the scale table of the root is not empty, and
the chart is produced with all 4 x 5 cells for both strings. -/
theorem supported_keys_accepted :
    ∀ key ∈ supported_keys,
      process_key_signature key ∈ chromatic_scale ∧
      is_valid_note key = true ∧
      map_empty (get_simplified_notation_scale (process_key_signature key)) = false ∧
      ∃ c, print_erhu_fingering_chart_vertical key = some (Outcome.chart c) ∧
        c.cells.length = 4 ∧ (∀ row ∈ c.cells, row.length = 5) ∧
        (chart_symbols c).length = 40 := by
  intro key hkey
  have h : process_key_signature key ∈ chromatic_scale ∧ is_valid_note key = true ∧
      map_empty (get_simplified_notation_scale (process_key_signature key)) = false := by
    revert key
    decide
  obtain ⟨c, hc, h4, h5, h40, _⟩ := chart_of_valid_key key h.1
  exact ⟨h.1, h.2.1, h.2.2, c, hc, h4, h5, h40⟩

theorem supported_keys_accepted_witness :
    "Gb" ∈ supported_keys ∧
      process_key_signature "Gb" ∈ chromatic_scale ∧
      is_valid_note "Gb" = true ∧
      map_empty (get_simplified_notation_scale (process_key_signature "Gb")) = false ∧
      ∃ c, print_erhu_fingering_chart_vertical "Gb" = some (Outcome.chart c) ∧
        c.cells.length = 4 ∧ (∀ row ∈ c.cells, row.length = 5) ∧
        (chart_symbols c).length = 40 :=
  ⟨by decide, supported_keys_accepted "Gb" (by decide)⟩

/-- C11: for the keys D, G, F, C, A and Bb the open-string degrees announced by the hint
are the ones the resolver computes against the scale of the key: (inner D, outer A) is
("1","5"), ("5","2"), ("6","3"), ("2","6"), ("4","1") and ("3","7"), and the chart shows
the same pair as its open-string displays. -/
theorem open_string_hints_agree :
    ∀ key a b,
      (key, a, b) ∈ [("D", "1", "5"), ("G", "5", "2"), ("F", "6", "3"), ("C", "2", "6"),
        ("A", "4", "1"), ("Bb", "3", "7")] →
      open_string_hint key = some (a, b) ∧
      get_simplified_note (get_note_index inner_string_note)
        (get_simplified_notation_scale (process_key_signature key)) = some a ∧
      get_simplified_note (get_note_index outer_string_note)
        (get_simplified_notation_scale (process_key_signature key)) = some b ∧
      (print_erhu_fingering_chart_vertical key).map open_string_displays =
        some (some (a, b)) := by
  intro key a b h
  have table : ∀ e ∈ [("D", "1", "5"), ("G", "5", "2"), ("F", "6", "3"), ("C", "2", "6"),
      ("A", "4", "1"), ("Bb", "3", "7")],
      open_string_hint e.1 = some (e.2.1, e.2.2) ∧
      get_simplified_note (get_note_index inner_string_note)
        (get_simplified_notation_scale (process_key_signature e.1)) = some e.2.1 ∧
      get_simplified_note (get_note_index outer_string_note)
        (get_simplified_notation_scale (process_key_signature e.1)) = some e.2.2 ∧
      (print_erhu_fingering_chart_vertical e.1).map open_string_displays =
        some (some (e.2.1, e.2.2)) := by
    decide
  exact table (key, a, b) h

theorem open_string_hints_agree_witness :
    ("Bb", "3", "7") ∈ [("D", "1", "5"), ("G", "5", "2"), ("F", "6", "3"), ("C", "2", "6"),
        ("A", "4", "1"), ("Bb", "3", "7")] ∧
      open_string_hint "Bb" = some ("3", "7") ∧
      get_simplified_note (get_note_index inner_string_note)
        (get_simplified_notation_scale (process_key_signature "Bb")) = some "3" ∧
      get_simplified_note (get_note_index outer_string_note)
        (get_simplified_notation_scale (process_key_signature "Bb")) = some "7" ∧
      (print_erhu_fingering_chart_vertical "Bb").map open_string_displays =
        some (some ("3", "7")) :=
  ⟨by decide, open_string_hints_agree "Bb" "3" "7" (by decide)⟩

/-- C12, the code at key "Eb": the hint announces the open strings as b7 and 4, but
against the scale of the normalized root D# the inner open string D (index 2) resolves
to "7" and the outer open string A (index 9) resolves to "?", and the chart shows these
two as its open-string displays. -/
theorem open_strings_of_Eb :
    process_key_signature "Eb" = "D#" ∧
    open_string_hint "Eb" = some ("b7", "4") ∧
    get_note_index inner_string_note = 2 ∧
    get_note_index outer_string_note = 9 ∧
    get_simplified_note 2 (get_simplified_notation_scale "D#") = some "7" ∧
    get_simplified_note 9 (get_simplified_notation_scale "D#") = some "?" ∧
    (print_erhu_fingering_chart_vertical "Eb").map open_string_displays =
      some (some ("7", "?")) := by
  decide

/-- C13: name and index are in bijection over the 12-entry table: the name stored at
each i in 0..11 has index i, and for every string n the index is -1 or an i in 0..11 at
which the table stores n; it is -1 exactly when n is not in the table, as for every flat
spelling of a base letter A..G. -/
theorem name_index_bijection :
    chromatic_scale.length = 12 ∧
    (∀ i : Nat, i < 12 →
      ∃ n, chromatic_scale.get? i = some n ∧ get_note_index n = (i : Int)) ∧
    (∀ n : String, get_note_index n = -1 ∨
      (0 ≤ get_note_index n ∧ get_note_index n ≤ 11 ∧
        chromatic_at (get_note_index n) = some n)) ∧
    (∀ n : String, get_note_index n = -1 ↔ n ∉ chromatic_scale) ∧
    (∀ X ∈ ['A', 'B', 'C', 'D', 'E', 'F', 'G'],
      get_note_index (String.mk [X, 'b']) = -1) := by
  refine ⟨by decide, ?_, get_note_index_spec, get_note_index_eq_neg_one_iff, by decide⟩
  intro i hi
  interval_cases i <;> exact ⟨_, rfl, by decide⟩

/-- C14, as stated, fails: at position 0 the inner string gets index 2 for the open slot
and index 4 for finger 1, so finger 1 does not repeat the open slot. -/
theorem finger_one_differs_from_open :
    inner_note_index (get_note_index inner_string_note) 0 0 = 2 ∧
    inner_note_index (get_note_index inner_string_note) 0 1 = 4 ∧
    inner_note_index (get_note_index inner_string_note) 0 1 ≠
      inner_note_index (get_note_index inner_string_note) 0 0 ∧
    finger_interval.getD 1 0 = 2 := by
  decide

/-- C14, amended: finger 1 adds 2 semitones: for each string with open index S (2 for the
inner, 9 for the outer string) and each position p in 0..3, the open slot gets
(S + 7*p) mod 12 and finger slot 1 gets (S + 7*p + 2) mod 12, which is the open slot's
index plus 2 modulo 12. -/
theorem finger_one_adds_two :
    ∀ p : Nat, p < 4 →
      inner_note_index (get_note_index inner_string_note) p 0 = (2 + 7 * (p : Int)) % 12 ∧
      inner_note_index (get_note_index inner_string_note) p 1
        = (2 + 7 * (p : Int) + 2) % 12 ∧
      inner_note_index (get_note_index inner_string_note) p 1
        = (inner_note_index (get_note_index inner_string_note) p 0 + 2) % 12 ∧
      outer_note_index (get_note_index outer_string_note) p 0 = (9 + 7 * (p : Int)) % 12 ∧
      outer_note_index (get_note_index outer_string_note) p 1
        = (9 + 7 * (p : Int) + 2) % 12 ∧
      outer_note_index (get_note_index outer_string_note) p 1
        = (outer_note_index (get_note_index outer_string_note) p 0 + 2) % 12 := by
  decide

theorem finger_one_adds_two_witness :
    3 < 4 ∧
      inner_note_index (get_note_index inner_string_note) 3 0
        = (2 + 7 * ((3 : Nat) : Int)) % 12 ∧
      inner_note_index (get_note_index inner_string_note) 3 1
        = (2 + 7 * ((3 : Nat) : Int) + 2) % 12 ∧
      inner_note_index (get_note_index inner_string_note) 3 1
        = (inner_note_index (get_note_index inner_string_note) 3 0 + 2) % 12 ∧
      outer_note_index (get_note_index outer_string_note) 3 0
        = (9 + 7 * ((3 : Nat) : Int)) % 12 ∧
      outer_note_index (get_note_index outer_string_note) 3 1
        = (9 + 7 * ((3 : Nat) : Int) + 2) % 12 ∧
      outer_note_index (get_note_index outer_string_note) 3 1
        = (outer_note_index (get_note_index outer_string_note) 3 0 + 2) % 12 :=
  ⟨by decide, finger_one_adds_two 3 (by decide)⟩

/-- C15: each position is a 7-semitone shift of the previous one: for both strings, each
finger slot f in 0..4 and each position p in 0..2, the index of (p+1, f) is the index of
(p, f) plus 7 modulo 12; and the index of position 0, open slot, is the open index of the
string, 2 for the inner D and 9 for the outer A. -/
theorem position_shifts_by_seven :
    (∀ p : Nat, p < 3 → ∀ f : Nat, f < 5 →
      inner_note_index (get_note_index inner_string_note) (p + 1) f
        = (inner_note_index (get_note_index inner_string_note) p f + 7) % 12 ∧
      outer_note_index (get_note_index outer_string_note) (p + 1) f
        = (outer_note_index (get_note_index outer_string_note) p f + 7) % 12) ∧
    inner_note_index (get_note_index inner_string_note) 0 0
      = get_note_index inner_string_note ∧
    get_note_index inner_string_note = 2 ∧
    outer_note_index (get_note_index outer_string_note) 0 0
      = get_note_index outer_string_note ∧
    get_note_index outer_string_note = 9 := by
  decide

/-- C16: no table access is out of range: both open indices and the index computed for
every string, position p in 0..3 and finger slot f in 0..4 lie in 0..11; for every index
in 0..11 whose name contains '#' the name stripped of the sharp is found by
`get_note_index` (an index in 0..11, never -1); for any scale table the resolver returns
a symbol at every index in 0..11; and for every valid key the chart is produced. -/
theorem chart_indices_in_bounds :
    (0 ≤ get_note_index inner_string_note ∧ get_note_index inner_string_note ≤ 11 ∧
      0 ≤ get_note_index outer_string_note ∧ get_note_index outer_string_note ≤ 11) ∧
    (∀ p : Nat, p < 4 → ∀ f : Nat, f < 5 →
      0 ≤ inner_note_index (get_note_index inner_string_note) p f ∧
      inner_note_index (get_note_index inner_string_note) p f ≤ 11 ∧
      0 ≤ outer_note_index (get_note_index outer_string_note) p f ∧
      outer_note_index (get_note_index outer_string_note) p f ≤ 11) ∧
    (∀ i : Nat, i < 12 → ∀ name, chromatic_at (i : Int) = some name → '#' ∈ name.data →
      get_note_index (substr_before '#' name) ≠ -1 ∧
      0 ≤ get_note_index (substr_before '#' name) ∧
      get_note_index (substr_before '#' name) ≤ 11) ∧
    (∀ (scale : ScaleMap) (i : Int), 0 ≤ i → i ≤ 11 →
      (get_simplified_note i scale).isSome = true) ∧
    (∀ key : String, process_key_signature key ∈ chromatic_scale →
      ∃ c, print_erhu_fingering_chart_vertical key = some (Outcome.chart c)) := by
  refine ⟨by decide, by decide, ?_, ?_, ?_⟩
  · intro i hi name hname
    interval_cases i <;>
      (have e := Option.some.inj hname
       subst e
       decide)
  · intro scale i h0 h1
    exact get_simplified_note_defined i scale h0 h1
  · intro key h
    obtain ⟨c, hc, _⟩ := chart_of_valid_key key h
    exact ⟨c, hc⟩

/-- C17: flat normalization is enharmonically correct: for every base letter X in A..G
the index of the normalized X followed by 'b' is the index of X plus 11 modulo 12, one
semitone below the natural note. -/
theorem flat_is_one_semitone_below :
    ∀ X ∈ ['A', 'B', 'C', 'D', 'E', 'F', 'G'],
      get_note_index (process_key_signature (String.mk [X, 'b']))
        = (get_note_index (String.mk [X]) + 11) % 12 := by
  decide

theorem flat_is_one_semitone_below_witness :
    'C' ∈ ['A', 'B', 'C', 'D', 'E', 'F', 'G'] ∧
      get_note_index (process_key_signature (String.mk ['C', 'b']))
        = (get_note_index (String.mk ['C']) + 11) % 12 :=
  ⟨by decide, flat_is_one_semitone_below 'C' (by decide)⟩

/-- C18: a sharp-marked symbol names the degree one semitone below: for every canonical
root R, index i in 0..11 and symbol s, if the resolver returns s followed by "#" at i
against the scale of R, then i is not a key of that scale and the scale maps
(i + 11) mod 12 to s. -/
theorem sharp_symbol_names_degree_below :
    ∀ R ∈ chromatic_scale, ∀ i : Nat, i < 12 → ∀ s : String,
      get_simplified_note (i : Int) (get_simplified_notation_scale R) = some (s ++ "#") →
      (i : Int) ∉ map_keys (get_simplified_notation_scale R) ∧
      map_find (i : Int) (get_simplified_notation_scale R) = none ∧
      map_find (((i : Int) + 11) % 12) (get_simplified_notation_scale R) = some s := by
  intro R hR i hi s h
  have key := sharp_symbol_table R hR i hi
  rw [h] at key
  have hd : (s ++ "#").data = s.data ++ ['#'] := rfl
  simp only [Option.getD_some, hd, List.getLast?_concat, List.dropLast_concat,
    forall_const] at key
  exact key

theorem sharp_symbol_names_degree_below_witness :
    "C" ∈ chromatic_scale ∧ 1 < 12 ∧
      get_simplified_note ((1 : Nat) : Int) (get_simplified_notation_scale "C")
        = some ("1" ++ "#") ∧
      ((1 : Nat) : Int) ∉ map_keys (get_simplified_notation_scale "C") ∧
      map_find ((1 : Nat) : Int) (get_simplified_notation_scale "C") = none ∧
      map_find ((((1 : Nat) : Int) + 11) % 12) (get_simplified_notation_scale "C")
        = some "1" :=
  ⟨by decide, by decide, by decide,
    sharp_symbol_names_degree_below "C" (by decide) 1 (by decide) "1" (by decide)⟩

end Erhu
